import Mathlib

/-!
Shallow embedding of the postcss-lynx custom-property resolution engine
(`src/index.ts`): scope collection keyed by selector, the per-scope
fixed-point substitution loop with an iteration cap, write-back into the
declaration tree, and the read-only diagnostics pass.

Strings are Lean `String`s; the JavaScript regular expression
`var\(([^,)]+)(?:,([^)]+))?\)` and `String.prototype.replace` (first
occurrence) are modelled character-by-character.  JavaScript `Map`s are
association lists that preserve insertion order (`set` on an existing key
updates in place, on a fresh key appends).
-/

namespace PostcssLynx

/-- Substring test on character lists: `pat` occurs somewhere inside `s`. -/
def isSubL (pat : List Char) : List Char → Bool
  | [] => pat.isPrefixOf ([] : List Char)
  | c :: cs => pat.isPrefixOf (c :: cs) || isSubL pat cs

/-- `value.includes(pat)` from JavaScript. -/
def containsSub (s pat : String) : Bool := isSubL pat.data s.data

/-- `s.replace(pat, repl)` from JavaScript with a plain-string pattern:
replace the first occurrence of `pat` in `s`, leave `s` unchanged when
`pat` does not occur. -/
def replaceFirstL (pat repl : List Char) : List Char → List Char
  | [] => if pat.isPrefixOf ([] : List Char) then repl else []
  | c :: cs =>
      if pat.isPrefixOf (c :: cs) then repl ++ (c :: cs).drop pat.length
      else c :: replaceFirstL pat repl cs

/-- String version of `replaceFirstL`. -/
def replaceFirst (s pat repl : String) : String :=
  String.mk (replaceFirstL pat.data repl.data s.data)

/-- `s.trim()` from JavaScript: strip leading and trailing whitespace. -/
def trimS (s : String) : String :=
  String.mk (((s.data.dropWhile Char.isWhitespace).reverse.dropWhile Char.isWhitespace).reverse)

/-- `decl.prop.startsWith("--")`. -/
def isCustomProp (p : String) : Bool := ("--".data).isPrefixOf p.data

/-- One match of the regex `var\(([^,)]+)(?:,([^)]+))?\)`:
the full matched text (`match[0]`), the captured name (`match[1]`) and the
optional captured fallback (`match[2]`). -/
structure VarMatch where
  matched : String
  name : String
  fallback : Option String
deriving DecidableEq, Repr

/-- Try to match the regex `var\(([^,)]+)(?:,([^)]+))?\)` at the head of the
character list.  Both character classes exclude the characters that follow
them, so the greedy maximal munch is exact (no backtracking can succeed
where it fails). -/
def matchVarAt : List Char → Option (List Char × List Char × Option (List Char))
  | 'v' :: 'a' :: 'r' :: '(' :: rest =>
      let name := rest.takeWhile (fun c => !(c == ',' || c == ')'))
      if name.isEmpty then none
      else
        match rest.drop name.length with
        | ')' :: _ =>
            some (('v' :: 'a' :: 'r' :: '(' :: name) ++ [')'], name, none)
        | ',' :: rest2 =>
            let fb := rest2.takeWhile (fun c => !(c == ')'))
            if fb.isEmpty then none
            else
              match rest2.drop fb.length with
              | ')' :: _ =>
                  some (('v' :: 'a' :: 'r' :: '(' :: name) ++ (',' :: fb) ++ [')'],
                    name, some fb)
              | _ => none
        | _ => none
  | _ => none

/-- The global-flag `exec` loop: scan left to right, and after a match resume
immediately after its end (`lastIndex`).  `fuel` only bounds the recursion;
`s.length` is always enough since every step consumes at least one
character. -/
def scanMatches : Nat → List Char → List (List Char × List Char × Option (List Char))
  | 0, _ => []
  | _ + 1, [] => []
  | fuel + 1, c :: cs =>
      match matchVarAt (c :: cs) with
      | some m => m :: scanMatches fuel ((c :: cs).drop m.1.length)
      | none => scanMatches fuel cs

/-- All matches of the `var(...)` regex in `s`, in order. -/
def findMatches (s : String) : List VarMatch :=
  (scanMatches s.data.length s.data).map
    (fun m => ⟨String.mk m.1, String.mk m.2.1, m.2.2.map String.mk⟩)

/-- Inner map of one scope: custom-property name to current value,
insertion-ordered. -/
abbrev VarMap := List (String × String)

/-- `selectorVarMap`: selector to scope map, insertion-ordered. -/
abbrev ScopeTable := List (String × VarMap)

/-- `Map.get`. -/
def mapGet {α : Type} (m : List (String × α)) (k : String) : Option α :=
  (m.find? (fun p => p.1 == k)).map Prod.snd

/-- `Map.set`: update in place when the key is present (insertion order
kept), append otherwise. -/
def mapSet {α : Type} (m : List (String × α)) (k : String) (v : α) : List (String × α) :=
  if m.any (fun p => p.1 == k) then
    m.map (fun p => if p.1 == k then (k, v) else p)
  else m ++ [(k, v)]

/-- The "try to find it in other selector contexts" loop (lines 137-153 of
the plugin): walk the scope table in order, skip the entry whose selector
is `sel`, and return the first value found for `name`. -/
def lookupOther (tbl : ScopeTable) (sel : String) (name : String) : Option String :=
  (tbl.filter (fun p => p.1 != sel)).findSome? (fun p => mapGet p.2 name)

/-- Handle one regex match against the current rewritten value `nv`
(lines 126-161): own scope first, then the first other scope, then the
trimmed fallback when it is non-empty (JavaScript truthiness), else leave
`nv` alone; the Bool is `madeChange` for this match. -/
def substMatch (tbl : ScopeTable) (sel : String) (own : VarMap) (nv : String)
    (m : VarMatch) : String × Bool :=
  match mapGet own (trimS m.name) with
  | some v => (replaceFirst nv m.matched v, true)
  | none =>
      match lookupOther tbl sel (trimS m.name) with
      | some v => (replaceFirst nv m.matched v, true)
      | none =>
          match m.fallback with
          | some fraw =>
              if trimS fraw = "" then (nv, false)
              else (replaceFirst nv m.matched (trimS fraw), true)
          | none => (nv, false)

/-- The inner `while ((match = varRegex.exec(testValue)))` loop for one
property value: matches are taken from the original value, replacements are
folded over the evolving `newValue`. -/
def processValue (tbl : ScopeTable) (sel : String) (own : VarMap) (value : String) :
    String × Bool :=
  (findMatches value).foldl
    (fun acc m =>
      let r := substMatch tbl sel own acc.1 m
      (r.1, acc.2 || r.2))
    (value, false)

/-- One pass of the `for (const [prop, value] of varMap.entries())` loop for
the scope `sel`: thread the table (the scope map is mutated in place as
earlier properties finish), return the updated table and `resolvedSomething`. -/
def passScope (tbl : ScopeTable) (sel : String) : ScopeTable × Bool :=
  (((mapGet tbl sel).getD []).map Prod.fst).foldl
    (fun acc key =>
      let own := (mapGet acc.1 sel).getD []
      match mapGet own key with
      | none => acc
      | some value =>
          if containsSub value "var(--" then
            let r := processValue acc.1 sel own value
            if r.2 then (mapSet acc.1 sel (mapSet own key r.1), true) else acc
          else acc)
    (tbl, false)

/-- The `while (resolvedSomething && iterations < maxIterations)` loop for
one scope.  `fuel` starts at `m`; a recursive call happens only when
`iters < m` and `iters` grows by one each pass, so the fuel never runs out
before the guard fails.  Returns the table and the final `iterations`. -/
def resolveScopeAux (m : Nat) : Nat → Nat → ScopeTable → String → ScopeTable × Nat
  | 0, iters, tbl, _ => (tbl, iters)
  | fuel + 1, iters, tbl, sel =>
      if iters < m then
        if (passScope tbl sel).2 then
          resolveScopeAux m fuel (iters + 1) (passScope tbl sel).1 sel
        else ((passScope tbl sel).1, iters + 1)
      else (tbl, iters)

/-- Resolution of one scope, starting from `iterations = 0`. -/
def resolveScope (m : Nat) (tbl : ScopeTable) (sel : String) : ScopeTable × Nat :=
  resolveScopeAux m m 0 tbl sel

/-- The message of `console.warn` at lines 171-175. -/
def maxIterWarning : String :=
  "postcss-lynx: Maximum iterations reached. There might be circular references."

/-- The `for (const [selector, varMap] of selectorVarMap.entries())` loop of
`OnceExit`: resolve scope after scope on the shared, threaded table; after
each scope, warn when `iterations >= maxIterations && logWarnings`. -/
def resolveAllAux (m : Nat) (logW : Bool) : List String → ScopeTable → ScopeTable × List String
  | [], tbl => (tbl, [])
  | sel :: rest, tbl =>
      ((resolveAllAux m logW rest (resolveScope m tbl sel).1).1,
        (if m ≤ (resolveScope m tbl sel).2 ∧ logW = true then [maxIterWarning] else []) ++
          (resolveAllAux m logW rest (resolveScope m tbl sel).1).2)

/-- The whole per-scope resolution phase of `OnceExit`. -/
def resolveAll (m : Nat) (logW : Bool) (tbl : ScopeTable) : ScopeTable × List String :=
  resolveAllAux m logW (tbl.map Prod.fst) tbl

/-- A postcss declaration: property name and raw value. -/
structure Decl where
  prop : String
  value : String
deriving DecidableEq, Repr

/-- A rule context: `none` models a parent with no `selector` field. -/
structure Rule where
  sel : Option String
  decls : List Decl
deriving DecidableEq, Repr

/-- The stylesheet tree walked by `walkDecls`, in document order. -/
abbrev Root := List Rule

/-- `getSelector` (lines 51-55): the parent selector, or the literal
string `"unknown"` when the parent has no selector. -/
def getSelector (s : Option String) : String := s.getD "unknown"

/-- The `Declaration` visitor for one declaration (lines 93-104). -/
def collectDecl (tbl : ScopeTable) (sel : String) (d : Decl) : ScopeTable :=
  if isCustomProp d.prop then
    mapSet tbl sel (mapSet ((mapGet tbl sel).getD []) d.prop d.value)
  else tbl

/-- The scope-collection phase: every custom-property declaration, in
document order, is stored under its rule selector. -/
def collect (root : Root) : ScopeTable :=
  root.foldl
    (fun tbl r => r.decls.foldl (fun t d => collectDecl t (getSelector r.sel) d) tbl)
    []

/-- Write-back for one declaration (lines 179-191): only custom properties
whose scope and name are in the table are rewritten, and a resolved value
that is the empty string is discarded (`|| decl.value`). -/
def writeBackDecl (tbl : ScopeTable) (sel : String) (d : Decl) : Decl :=
  if isCustomProp d.prop then
    match mapGet tbl sel with
    | some vm =>
        match mapGet vm d.prop with
        | some v => ⟨d.prop, if v = "" then d.value else v⟩
        | none => d
    | none => d
  else d

/-- The write-back `walkDecls` pass. -/
def writeBack (tbl : ScopeTable) (root : Root) : Root :=
  root.map (fun r => ⟨r.sel, r.decls.map (writeBackDecl tbl (getSelector r.sel))⟩)

/-- An ASCII apostrophe, kept out of string literals. -/
def squote : String := "\x27"

/-- The undefined-variable warning text of lines 220-224. -/
def undefWarning (name sel : String) : String :=
  "postcss-lynx: Undefined variable " ++ squote ++ name ++ squote ++
    " used in " ++ squote ++ sel ++ squote

/-- The existence check of lines 207-218: the own scope map first, else any
scope map in table order. -/
def existsAnywhere (tbl : ScopeTable) (sel : String) (name : String) : Bool :=
  match mapGet tbl sel with
  | some vm =>
      if (mapGet vm name).isSome then true
      else tbl.any (fun p => (mapGet p.2 name).isSome)
  | none => tbl.any (fun p => (mapGet p.2 name).isSome)

/-- Diagnostics for one declaration (lines 194-227): for every regex match
in a value containing `var(--`, warn when the name exists nowhere and the
trimmed fallback is missing or empty (JavaScript `!fallback`). -/
def diagDecl (tbl : ScopeTable) (logW : Bool) (sel : String) (d : Decl) : List String :=
  if containsSub d.value "var(--" then
    (findMatches d.value).filterMap
      (fun m =>
        if existsAnywhere tbl sel (trimS m.name) = false ∧
            ((m.fallback.map trimS).getD "") = "" ∧ logW = true then
          some (undefWarning (trimS m.name) sel)
        else none)
  else []

/-- The read-only diagnostics `walkDecls` pass; it emits warnings and
touches no declaration. -/
def diagnostics (tbl : ScopeTable) (logW : Bool) (root : Root) : List String :=
  (root.map (fun r => (r.decls.map (diagDecl tbl logW (getSelector r.sel))).flatten)).flatten

/-- The whole `OnceExit` (after collection): resolve all scopes, write the
resolved values back into the tree, then run diagnostics on the updated
tree.  Returns the final tree and all warnings in emission order. -/
def onceExit (m : Nat) (logW : Bool) (root : Root) : Root × List String :=
  let tbl := collect root
  let r := resolveAll m logW tbl
  let root2 := writeBack r.1 root
  (root2, r.2 ++ diagnostics r.1 logW root2)

/-- Table state after `n` passes over the scope `sel`. -/
def passN (sel : String) (tbl : ScopeTable) : Nat → ScopeTable
  | 0 => tbl
  | n + 1 => (passScope (passN sel tbl n) sel).1

/-- The declaration at position `j` of the rule at position `i`. -/
def declAt (root : Root) (i j : Nat) : Option Decl :=
  (root[i]?).bind (fun r => r.decls[j]?)

/-! Helper lemmas shared by the claim theorems. -/

theorem foldl_eq_init {α β : Type} (f : β → α → β) (b : β) (l : List α)
    (h : ∀ x ∈ l, f b x = b) : l.foldl f b = b := by
  induction l with
  | nil => rfl
  | cons x xs ih =>
      rw [List.foldl_cons, h x (List.mem_cons_self x xs)]
      exact ih (fun y hy => h y (List.mem_cons_of_mem x hy))

theorem isPrefixOf_trans {p q s : List Char} (hpq : p.isPrefixOf q = true)
    (hqs : q.isPrefixOf s = true) : p.isPrefixOf s = true := by
  rw [List.isPrefixOf_iff_prefix] at hpq hqs ⊢
  exact hpq.trans hqs

theorem isSubL_of_prefix {p q : List Char} (hpq : p.isPrefixOf q = true) :
    ∀ s : List Char, isSubL q s = true → isSubL p s = true := by
  intro s
  induction s with
  | nil =>
      intro h
      unfold isSubL at h ⊢
      exact isPrefixOf_trans hpq h
  | cons c cs ih =>
      intro h
      unfold isSubL at h ⊢
      simp only [Bool.or_eq_true] at h ⊢
      rcases h with h1 | h2
      · exact Or.inl (isPrefixOf_trans hpq h1)
      · exact Or.inr (ih h2)

theorem containsSub_varDD_of_var {v : String} (h : containsSub v "var(" = false) :
    containsSub v "var(--" = false := by
  by_contra hc
  rw [Bool.not_eq_false] at hc
  have := isSubL_of_prefix (p := "var(".data) (q := "var(--".data) (by decide) v.data hc
  rw [containsSub] at h
  exact absurd this (by rw [h]; exact Bool.false_ne_true)

theorem passScope_noop (tbl : ScopeTable) (sel : String)
    (h : ∀ p ∈ tbl, ∀ q ∈ p.2, containsSub q.2 "var(" = false) :
    passScope tbl sel = (tbl, false) := by
  unfold passScope
  apply foldl_eq_init
  intro key _
  simp only
  cases hs : mapGet tbl sel with
  | none => simp [mapGet]
  | some vm =>
      rcases Option.map_eq_some'.mp hs with ⟨pr, hpr, hpr2⟩
      have hprmem : pr ∈ tbl := List.mem_of_find?_eq_some hpr
      simp only [hs, Option.getD_some]
      cases hv : mapGet vm key with
      | none => rfl
      | some value =>
          rcases Option.map_eq_some'.mp hv with ⟨q, hq, hq2⟩
          have hqmem : q ∈ pr.2 := by
            rw [hpr2]
            exact List.mem_of_find?_eq_some hq
          have hval : containsSub value "var(--" = false := by
            rw [← hq2]
            exact containsSub_varDD_of_var (h pr hprmem q hqmem)
          simp [hval]

theorem resolveScope_noop (m : Nat) (tbl : ScopeTable) (sel : String)
    (h : ∀ p ∈ tbl, ∀ q ∈ p.2, containsSub q.2 "var(" = false) :
    (resolveScope m tbl sel).1 = tbl ∧ (1 ≤ m → resolveScope m tbl sel = (tbl, 1)) := by
  cases m with
  | zero => exact ⟨rfl, fun hm => absurd hm (by omega)⟩
  | succ m =>
      have hone : resolveScope (m + 1) tbl sel = (tbl, 1) := by
        unfold resolveScope resolveScopeAux
        rw [if_pos (by omega), passScope_noop tbl sel h]
        rfl
      exact ⟨by rw [hone], fun _ => hone⟩

theorem resolveAllAux_noop_fst (m : Nat) (logW : Bool) (tbl : ScopeTable)
    (h : ∀ p ∈ tbl, ∀ q ∈ p.2, containsSub q.2 "var(" = false) :
    ∀ sels : List String, (resolveAllAux m logW sels tbl).1 = tbl := by
  intro sels
  induction sels with
  | nil => rfl
  | cons sel rest ih =>
      unfold resolveAllAux
      simp only
      rw [(resolveScope_noop m tbl sel h).1]
      exact ih

theorem passN_shift (sel : String) (tbl : ScopeTable) :
    ∀ j, passN sel (passScope tbl sel).1 j = passN sel tbl (j + 1) := by
  intro j
  induction j with
  | zero => rfl
  | succ j ih =>
      show (passScope (passN sel (passScope tbl sel).1 j) sel).1 = passN sel tbl (j + 1 + 1)
      rw [ih]
      rfl

theorem resolveScopeAux_cap_iff (m : Nat) (sel : String) :
    ∀ (fuel iters : Nat) (tbl : ScopeTable), iters + fuel = m →
      (m ≤ (resolveScopeAux m fuel iters tbl sel).2 ↔
        ∀ j, j + 1 < fuel → (passScope (passN sel tbl j) sel).2 = true) := by
  intro fuel
  induction fuel with
  | zero =>
      intro iters tbl h
      unfold resolveScopeAux
      constructor
      · intro _ j hj
        exact absurd hj (by omega)
      · intro _
        exact (by omega : m ≤ iters)
  | succ fuel ih =>
      intro iters tbl h
      have hlt : iters < m := by omega
      unfold resolveScopeAux
      rw [if_pos hlt]
      cases hp : (passScope tbl sel).2 with
      | false =>
          simp only [Bool.false_eq_true, if_false]
          cases fuel with
          | zero =>
              constructor
              · intro _ j hj
                exact absurd hj (by omega)
              · intro _
                exact (by omega : m ≤ iters + 1)
          | succ fuel' =>
              constructor
              · intro hle
                have hle' : m ≤ iters + 1 := hle
                exact absurd hle' (by omega)
              · intro hall
                have h0 := hall 0 (by omega)
                rw [show passN sel tbl 0 = tbl from rfl, hp] at h0
                exact absurd h0 (by simp)
      | true =>
          simp only [if_true]
          rw [ih (iters + 1) (passScope tbl sel).1 (by omega)]
          constructor
          · intro hall j hj
            cases j with
            | zero =>
                rw [show passN sel tbl 0 = tbl from rfl]
                exact hp
            | succ j' =>
                have hrec := hall j' (by omega)
                rw [passN_shift] at hrec
                exact hrec
          · intro hall j hj
            rw [passN_shift]
            exact hall (j + 1) (by omega)

theorem resolveAllAux_warnings_shape (m : Nat) :
    ∀ (sels : List String) (tbl : ScopeTable),
      (∀ w ∈ (resolveAllAux m true sels tbl).2, w = maxIterWarning) ∧
      (resolveAllAux m true sels tbl).2.length ≤ sels.length := by
  intro sels
  induction sels with
  | nil =>
      intro tbl
      exact ⟨fun w hw => absurd hw (by simp [resolveAllAux]), by simp [resolveAllAux]⟩
  | cons sel rest ih =>
      intro tbl
      constructor
      · intro w hw
        have hw' : w ∈ (if m ≤ (resolveScope m tbl sel).2 ∧ true = true then
              [maxIterWarning] else ([] : List String)) ++
            (resolveAllAux m true rest (resolveScope m tbl sel).1).2 := hw
        rcases List.mem_append.mp hw' with h1 | h2
        · split at h1
          · simpa using h1
          · simp at h1
        · exact (ih (resolveScope m tbl sel).1).1 w h2
      · have h2 := (ih (resolveScope m tbl sel).1).2
        have hle : ((if m ≤ (resolveScope m tbl sel).2 ∧ true = true then
              [maxIterWarning] else ([] : List String)) ++
            (resolveAllAux m true rest (resolveScope m tbl sel).1).2).length ≤ rest.length + 1 := by
          rw [List.length_append]
          split
          · simp only [List.length_singleton]
            omega
          · simp only [List.length_nil]
            omega
        exact hle

end PostcssLynx

/-! The claim theorems. -/

namespace PostcssLynx

set_option maxRecDepth 8000

/-- C1: for the single scope `--base: 16px; --unit: var(--base);
--large: calc(var(--unit) * 2);`, the resolver followed by write-back
yields `--base = 16px`, `--unit = 16px` and `--large = calc(16px * 2)`,
the inner `var(--unit)` substring being replaced while the surrounding
`calc( ... * 2)` text is untouched; no warning is emitted. -/
theorem C1_chained_resolution :
    onceExit 100 true
        [⟨some ".root", [⟨"--base", "16px"⟩, ⟨"--unit", "var(--base)"⟩,
          ⟨"--large", "calc(var(--unit) * 2)"⟩]⟩] =
      ([⟨some ".root", [⟨"--base", "16px"⟩, ⟨"--unit", "16px"⟩,
          ⟨"--large", "calc(16px * 2)"⟩]⟩], []) := by
  decide

/-- C2: when the scope `sel` that holds the reference has its own value `v`
for the (trimmed) referenced name, the substitution step uses `v` and never
the value `w` that a lookup across the other scopes would find — for every
table, i.e. regardless of the order in which scopes were collected. -/
theorem C2_own_scope_priority (tbl : ScopeTable) (sel : String) (own : VarMap)
    (nv : String) (m : VarMatch) (v w : String)
    (hS : mapGet tbl sel = some own)
    (hown : mapGet own (trimS m.name) = some v)
    (hother : lookupOther tbl sel (trimS m.name) = some w) :
    substMatch tbl sel own nv m = (replaceFirst nv m.matched v, true) := by
  unfold substMatch
  rw [hown]

/-- Witness for C2 at a concrete input: `--c` is `blue` in the own scope
`.s` and `red` in the other scope `.o`; the own value wins. -/
theorem C2_own_scope_priority_witness :
    substMatch [(".s", [("--c", "blue")]), (".o", [("--c", "red")])] ".s"
        [("--c", "blue")] "var(--c)" ⟨"var(--c)", "--c", none⟩ =
      (replaceFirst "var(--c)" "var(--c)" "blue", true) :=
  C2_own_scope_priority [(".s", [("--c", "blue")]), (".o", [("--c", "red")])] ".s"
    [("--c", "blue")] "var(--c)" ⟨"var(--c)", "--c", none⟩ "blue" "red"
    (by decide) (by decide) (by decide)

/-- C3: the fallback of `var(NAME, FALLBACK)` is substituted exactly when
NAME is absent from the own scope and from every other scope; a defined
value (own scope first, else the first other scope encountered) is always
preferred over the fallback; and a reference with no fallback whose name is
absent everywhere is left un-substituted. -/
theorem C3_fallback_precedence (tbl : ScopeTable) (sel : String) (own : VarMap)
    (nv : String) (m : VarMatch) (hS : mapGet tbl sel = some own) :
    (mapGet own (trimS m.name) = none → lookupOther tbl sel (trimS m.name) = none →
      ∀ f, m.fallback = some f → trimS f ≠ "" →
        substMatch tbl sel own nv m = (replaceFirst nv m.matched (trimS f), true)) ∧
    (∀ v, mapGet own (trimS m.name) = some v →
      substMatch tbl sel own nv m = (replaceFirst nv m.matched v, true)) ∧
    (∀ v, mapGet own (trimS m.name) = none → lookupOther tbl sel (trimS m.name) = some v →
      substMatch tbl sel own nv m = (replaceFirst nv m.matched v, true)) ∧
    (mapGet own (trimS m.name) = none → lookupOther tbl sel (trimS m.name) = none →
      m.fallback = none → substMatch tbl sel own nv m = (nv, false)) := by
  refine ⟨?_, ?_, ?_, ?_⟩
  · intro h1 h2 f hf hne
    unfold substMatch
    rw [h1, h2, hf]
    show (if trimS f = "" then (nv, false)
        else (replaceFirst nv m.matched (trimS f), true)) = _
    rw [if_neg hne]
  · intro v hv
    unfold substMatch
    rw [hv]
  · intro v h1 h2
    unfold substMatch
    rw [h1, h2]
  · intro h1 h2 h3
    unfold substMatch
    rw [h1, h2, h3]

/-- Witness for C3 at a concrete input: `--u` is defined nowhere, so
`var(--u, red)` resolves to the fallback. -/
theorem C3_fallback_precedence_witness :
    substMatch [(".s", [])] ".s" [] "var(--u, red)"
        ⟨"var(--u, red)", "--u", some " red"⟩ =
      (replaceFirst "var(--u, red)" "var(--u, red)" (trimS " red"), true) :=
  (C3_fallback_precedence [(".s", [])] ".s" [] "var(--u, red)"
      ⟨"var(--u, red)", "--u", some " red"⟩ (by decide)).1
    (by decide) (by decide) " red" rfl (by decide)

/-- C4: a declaration whose property name does not start with `--` keeps a
byte-identical value through the whole `OnceExit` (write-back rewrites only
custom properties and the diagnostics pass returns warnings without
touching the tree), even when the value contains a resolvable `var()`
reference. -/
theorem C4_style_decls_unchanged (m : Nat) (logW : Bool) (root : Root) (i j : Nat) (d : Decl)
    (hd : declAt root i j = some d) (hstyle : isCustomProp d.prop = false) :
    declAt (onceExit m logW root).1 i j = some d := by
  have hwb : (onceExit m logW root).1 =
      writeBack (resolveAll m logW (collect root)).1 root := rfl
  rw [hwb]
  unfold declAt at hd ⊢
  unfold writeBack
  rw [List.getElem?_map]
  cases hroot : root[i]? with
  | none =>
      rw [hroot] at hd
      exact absurd hd (by simp)
  | some r =>
      rw [hroot] at hd
      rw [Option.some_bind] at hd
      rw [Option.map_some', Option.some_bind]
      show (r.decls.map (writeBackDecl (resolveAll m logW (collect root)).1
        (getSelector r.sel)))[j]? = some d
      rw [List.getElem?_map, hd, Option.map_some']
      have hid : writeBackDecl (resolveAll m logW (collect root)).1 (getSelector r.sel) d = d := by
        unfold writeBackDecl
        simp [hstyle]
      rw [hid]

/-- Witness for C4 at a concrete input: `padding: var(--x)` survives
unchanged although `--x` resolves to `1px`. -/
theorem C4_style_decls_unchanged_witness :
    declAt (onceExit 100 true
        [⟨some ".r", [⟨"--x", "1px"⟩, ⟨"padding", "var(--x)"⟩]⟩]).1 0 1 =
      some ⟨"padding", "var(--x)"⟩ :=
  C4_style_decls_unchanged 100 true
    [⟨some ".r", [⟨"--x", "1px"⟩, ⟨"padding", "var(--x)"⟩]⟩] 0 1
    ⟨"padding", "var(--x)"⟩ (by decide) (by decide)

/-- C5 counterexample: two scopes whose loops both hit the cap make one run
emit two maximum-iterations warnings, so the run does not surface exactly
one warning for the whole run. -/
theorem C5_single_run_warning_refuted :
    (onceExit 2 true
        [⟨some ".a", [⟨"--a", "var(--b)"⟩, ⟨"--b", "var(--a)"⟩]⟩,
         ⟨some ".b", [⟨"--c", "var(--d)"⟩, ⟨"--d", "var(--c)"⟩]⟩]).2 =
      [maxIterWarning, maxIterWarning] ∧
    (onceExit 2 true
        [⟨some ".a", [⟨"--a", "var(--b)"⟩, ⟨"--b", "var(--a)"⟩]⟩,
         ⟨some ".b", [⟨"--c", "var(--d)"⟩, ⟨"--d", "var(--c)"⟩]⟩]).2.length ≠ 1 := by
  constructor
  · decide
  · decide

/-- C5 amended: the resolver handles each scope with its own iteration
counter and emits the maximum-iterations warning per scope that reaches its
cap: every resolver warning is that warning, there is at most one per
scope, and for a single-scope table the warning appears exactly when that
scope's iteration count reaches the cap. -/
theorem C5_per_scope_cap_warnings (m : Nat) (tbl : ScopeTable) :
    (∀ w ∈ (resolveAll m true tbl).2, w = maxIterWarning) ∧
    (resolveAll m true tbl).2.length ≤ tbl.length ∧
    (∀ (sel : String) (vm : VarMap),
      (resolveAll m true [(sel, vm)]).2 =
        if m ≤ (resolveScope m [(sel, vm)] sel).2 then [maxIterWarning] else []) := by
  refine ⟨?_, ?_, ?_⟩
  · exact (resolveAllAux_warnings_shape m (tbl.map Prod.fst) tbl).1
  · have hlen := (resolveAllAux_warnings_shape m (tbl.map Prod.fst) tbl).2
    rw [List.length_map] at hlen
    exact hlen
  · intro sel vm
    have hr : (resolveAll m true [(sel, vm)]).2 =
        (if m ≤ (resolveScope m [(sel, vm)] sel).2 ∧ true = true then
          [maxIterWarning] else []) ++ [] := rfl
    rw [hr, List.append_nil]
    by_cases hc : m ≤ (resolveScope m [(sel, vm)] sel).2
    · rw [if_pos ⟨hc, rfl⟩, if_pos hc]
    · rw [if_neg (fun hand => hc hand.1), if_neg hc]

/-- Witness for C5 amended at a concrete input: a one-scope cyclic table
with cap 2 yields resolver warnings that are all the maximum-iterations
warning, at most one per scope. -/
theorem C5_per_scope_cap_warnings_witness :
    maxIterWarning = maxIterWarning ∧
      (resolveAll 2 true [(".a", [("--a", "var(--a)")])]).2.length ≤ 1 := by
  constructor
  · exact (C5_per_scope_cap_warnings 2 [(".a", [("--a", "var(--a)")])]).1
      maxIterWarning (by decide)
  · exact (C5_per_scope_cap_warnings 2 [(".a", [("--a", "var(--a)")])]).2.1

/-- C6: on the cyclic single scope `--a: var(--b); --b: var(--a);` with the
default cap 100, the run terminates with iteration count exactly the cap,
emits exactly one warning (the maximum-iterations one), and returns
best-effort partially substituted values. -/
theorem C6_cycle_termination :
    onceExit 100 true [⟨some ".a", [⟨"--a", "var(--b)"⟩, ⟨"--b", "var(--a)"⟩]⟩] =
      ([⟨some ".a", [⟨"--a", "var(--a)"⟩, ⟨"--b", "var(--a)"⟩]⟩], [maxIterWarning]) ∧
    (resolveScope 100
        (collect [⟨some ".a", [⟨"--a", "var(--b)"⟩, ⟨"--b", "var(--a)"⟩]⟩]) ".a").2 = 100 := by
  constructor
  · decide
  · decide

/-- C7 counterexample: with cap 2, the scope `--b: 16px; --u: var(--b)`
resolves fully in pass 1 and reaches the fixed point at pass 2 — within the
cap — yet the run still emits the maximum-iterations warning, because the
warning condition is `iterations >= maxIterations`, not "cap reached while
substitutions were still occurring". -/
theorem C7_fixed_point_still_warns :
    (resolveAll 2 true [(".r", [("--b", "16px"), ("--u", "var(--b)")])]).2 =
      [maxIterWarning] ∧
    (passScope (passN ".r" [(".r", [("--b", "16px"), ("--u", "var(--b)")])] 1) ".r").2 = false ∧
    (resolveScope 2 [(".r", [("--b", "16px"), ("--u", "var(--b)")])] ".r").2 = 2 := by
  refine ⟨by decide, by decide, by decide⟩

/-- C7 amended: for a scope, the iteration count reaches the cap `m` (the
warning condition) exactly when each of the first `m - 1` passes still made
a substitution — regardless of whether the `m`-th pass changed anything; a
fixed point reached in fewer than `m` passes yields no warning. -/
theorem C7_cap_warning_iff (m : Nat) (tbl : ScopeTable) (sel : String) :
    m ≤ (resolveScope m tbl sel).2 ↔
      ∀ j, j + 1 < m → (passScope (passN sel tbl j) sel).2 = true :=
  resolveScopeAux_cap_iff m sel m 0 tbl (Nat.zero_add m)

/-- Witness for C7 amended at a concrete input: with cap 1 the condition on
the first 0 passes is vacuous, so the count reaches the cap. -/
theorem C7_cap_warning_iff_witness : 1 ≤ (resolveScope 1 ([] : ScopeTable) ".r").2 :=
  (C7_cap_warning_iff 1 [] ".r").mpr (fun j hj => absurd hj (by omega))

/-- C8: a reference resolved via its fallback substitutes the parsed
(trimmed) fallback text in one textual replacement, with no lookup inside
the fallback; concretely, `var(--x, var(--y))` with `--x` unresolvable
becomes exactly `var(--y)` in that step even though `--y` is defined as
`blue` — the nested reference is substituted verbatim, not recursively
evaluated. -/
theorem C8_fallback_verbatim :
    (∀ (tbl : ScopeTable) (sel : String) (own : VarMap) (nv : String) (m : VarMatch) (f : String),
        mapGet own (trimS m.name) = none → lookupOther tbl sel (trimS m.name) = none →
        m.fallback = some f → trimS f ≠ "" →
        substMatch tbl sel own nv m = (replaceFirst nv m.matched (trimS f), true)) ∧
    processValue [(".r", [("--p", "var(--x, var(--y))"), ("--y", "blue")])] ".r"
        [("--p", "var(--x, var(--y))"), ("--y", "blue")] "var(--x, var(--y))" =
      ("var(--y)", true) := by
  constructor
  · intro tbl sel own nv m f h1 h2 hf hne
    unfold substMatch
    rw [h1, h2, hf]
    show (if trimS f = "" then (nv, false)
        else (replaceFirst nv m.matched (trimS f), true)) = _
    rw [if_neg hne]
  · decide

/-- Witness for C8 at a concrete input: `var(--u, red)` with `--u` absent
everywhere substitutes the trimmed fallback. -/
theorem C8_fallback_verbatim_witness :
    substMatch [] ".s" [] "var(--u, red)" ⟨"var(--u, red)", "--u", some " red"⟩ =
      (replaceFirst "var(--u, red)" "var(--u, red)" (trimS " red"), true) :=
  C8_fallback_verbatim.1 [] ".s" [] "var(--u, red)"
    ⟨"var(--u, red)", "--u", some " red"⟩ " red" (by decide) (by decide) rfl (by decide)

/-- C9: on a table none of whose values contains a `var(` occurrence the
resolver changes nothing — the first pass of each scope makes no
substitution, the loop stops after that single pass, and the table is
returned unchanged, so resolution is idempotent on resolved tables. -/
theorem C9_resolved_idempotent (m : Nat) (logW : Bool) (tbl : ScopeTable)
    (h : ∀ p ∈ tbl, ∀ q ∈ p.2, containsSub q.2 "var(" = false) :
    (resolveAll m logW tbl).1 = tbl ∧
    (1 ≤ m → ∀ sel : String, resolveScope m tbl sel = (tbl, 1)) := by
  constructor
  · exact resolveAllAux_noop_fst m logW tbl h (tbl.map Prod.fst)
  · intro hm sel
    exact (resolveScope_noop m tbl sel h).2 hm

/-- Witness for C9 at a concrete input: a fully resolved one-scope table is
returned unchanged. -/
theorem C9_resolved_idempotent_witness :
    (resolveAll 100 true [(".r", [("--x", "red")])]).1 = [(".r", [("--x", "red")])] :=
  (C9_resolved_idempotent 100 true [(".r", [("--x", "red")])] (by decide)).1

/-- C10: a declaration whose parent has no selector is keyed by the literal
string `"unknown"`; two such declarations of `--x` from different
parentless contexts overwrite each other inside the single `"unknown"`
scope, and the undefined-variable warning for a parentless declaration
reports the selector as `unknown`. -/
theorem C10_unknown_scope :
    getSelector none = "unknown" ∧
    collect [⟨none, [⟨"--x", "1px"⟩]⟩,
        ⟨none, [⟨"--x", "2px"⟩, ⟨"padding", "var(--undef)"⟩]⟩] =
      [("unknown", [("--x", "2px")])] ∧
    (onceExit 100 true [⟨none, [⟨"--x", "1px"⟩]⟩,
        ⟨none, [⟨"--x", "2px"⟩, ⟨"padding", "var(--undef)"⟩]⟩]).2 =
      [undefWarning "--undef" "unknown"] := by
  refine ⟨rfl, by decide, by decide⟩

end PostcssLynx
